import Mathlib

/-!
Shallow embedding of the btc-bot core (risk engine, feature builder,
backtest simulator) and proofs of the specification claims.

Machine floating-point arithmetic is modelled by exact rationals; a
numpy not-a-number entry is modelled by `none : Option ℚ`.
-/

namespace BtcBot

/-! ### config.py -/

def MAX_TRADE_USD : ℚ := 10
def MAX_RISK_PCT : ℚ := 1/10
def EDGE_THRESHOLD : ℚ := 6/100
def CONSECUTIVE_LOSS_STOP : ℤ := 2
def DAILY_DRAWDOWN_CAP_PCT : ℚ := 1/10
def INITIAL_BALANCE : ℚ := 100

/-! ### risk/risk_manager.py -/

/-- Max position size: min of 10 percent of balance and 10 dollars. -/
def position_size (balance : ℚ) : ℚ :=
  min (MAX_RISK_PCT * balance) MAX_TRADE_USD

/-- Edge threshold check: model_prob - market_prob >= 0.06. -/
def has_edge (model_prob market_prob : ℚ) : Bool :=
  EDGE_THRESHOLD ≤ model_prob - market_prob

/-- Stop after 2 consecutive losses. -/
def should_stop_consecutive_losses (consecutive_losses : ℤ) : Bool :=
  CONSECUTIVE_LOSS_STOP ≤ consecutive_losses

/-- Stop if the daily drawdown reached 10 percent. -/
def should_stop_daily_drawdown (day_start_balance current_balance : ℚ) : Bool :=
  if day_start_balance ≤ 0 then false
  else DAILY_DRAWDOWN_CAP_PCT ≤ (day_start_balance - current_balance) / day_start_balance

/-- Combined trade-permission check, returning (allowed, reason). -/
def can_trade (balance : ℚ) (consecutive_losses : ℤ) (day_start_balance : ℚ) :
    Bool × String :=
  if balance < 1/100 then (false, "insufficient balance")
  else if should_stop_consecutive_losses consecutive_losses then
    (false, "stopped: 2 consecutive losses")
  else if 0 < day_start_balance ∧ should_stop_daily_drawdown day_start_balance balance then
    (false, "stopped: daily drawdown >= 10%")
  else if position_size balance < 1/100 then (false, "position size too small")
  else (true, "ok")

/-! ### execution/trade_executor.py -/

/-- Daily-drawdown guard of generate_signal: only fires when the current
day already has an entry in the daily_start map. -/
def daily_dd_stop (balance : ℚ) (day_start : Option ℚ) : Bool :=
  match day_start with
  | none => false
  | some ds =>
      decide (DAILY_DRAWDOWN_CAP_PCT ≤ (if 0 < ds then (ds - balance) / ds else 0))

/-- Live-path signal generator; returns (signal, position_usd, reason).
The mutable PaperTradingState is passed as explicit balance, loss count
and optional day-start entry for the current UTC day. -/
def generate_signal (model_prob market_prob balance : ℚ) (consecutive_losses : ℤ)
    (day_start : Option ℚ) : String × ℚ × String :=
  let edge := model_prob - market_prob
  if CONSECUTIVE_LOSS_STOP ≤ consecutive_losses then
    ("SKIP", 0, "stopped: 2 consecutive losses")
  else if daily_dd_stop balance day_start then
    ("SKIP", 0, "stopped: daily drawdown >= 10%")
  else if edge < EDGE_THRESHOLD then
    ("SKIP", 0, "no edge (need >= 0.06)")
  else
    let position := min (MAX_RISK_PCT * balance) MAX_TRADE_USD
    if position < 1/100 then
      ("SKIP", 0, "insufficient balance")
    else
      ("BUY_YES", position, "edge ok")

/-- The Risk/Decision Engine path of the claim: the has_edge check first,
as the simulator applies it, then can_trade, then position_size. -/
def engine_path (model_prob market_prob balance : ℚ) (consecutive_losses : ℤ)
    (day_start_balance : ℚ) : String × ℚ × String :=
  if has_edge model_prob market_prob then
    let c := can_trade balance consecutive_losses day_start_balance
    if c.1 then ("BUY_YES", position_size balance, c.2)
    else ("SKIP", 0, c.2)
  else ("SKIP", 0, "no edge")

/-! ### backtest/simulator.py -/

/-- Single simulated trade. -/
structure Trade where
  open_time_ms : ℤ
  model_prob : ℚ
  market_prob : ℚ
  edge : ℚ
  position_usd : ℚ
  outcome : ℕ
  pnl : ℚ
  balance_after : ℚ
  consecutive_losses_before : ℤ
deriving DecidableEq

/-- Convert open_time_ms to a UTC calendar day for daily grouping; two
timestamps fall on the same day exactly when their floor-division by the
number of milliseconds in a day agree. -/
def ms_to_date (ms : ℤ) : ℤ := Int.fdiv ms 86400000

/-- Mutable loop state of run_backtest, made explicit. -/
structure SimState where
  balance : ℚ
  peak_balance : ℚ
  daily_start : List (ℤ × ℚ)
  trades : List Trade
  consecutive_losses : ℤ
  stopped : Bool
  stop_reason : String

/-- The keyword parameters of run_backtest. -/
structure SimParams where
  initial_balance : ℚ
  max_trade_usd : ℚ
  max_risk_pct : ℚ
  edge_threshold : ℚ
  consecutive_loss_stop : ℤ
  daily_drawdown_cap : ℚ

/-- The config.py defaults of run_backtest's parameters. -/
def defaultParams : SimParams :=
  ⟨INITIAL_BALANCE, MAX_TRADE_USD, MAX_RISK_PCT, EDGE_THRESHOLD,
    CONSECUTIVE_LOSS_STOP, DAILY_DRAWDOWN_CAP_PCT⟩

/-- One input row of the simulation loop: a feature-builder timestamp,
the model probability predicted for that row, and the row's label. -/
structure Row where
  open_time_ms : ℤ
  model_prob : ℚ
  outcome : ℕ

/-- Dictionary read of the daily_start map. -/
def lookup_day (m : List (ℤ × ℚ)) (d : ℤ) : Option ℚ :=
  (m.find? (fun kv => kv.1 == d)).map (fun kv => kv.2)

/-- The initial run state of run_backtest. -/
def initState (p : SimParams) : SimState :=
  ⟨p.initial_balance, p.initial_balance, [], [], 0, false, ""⟩

/-- The yes_price dictionary value: a missing price and a price that is
exactly zero are both replaced by one half, mirroring the Python
short-circuit on a falsy value. -/
def yes_price_or_default : Option ℚ → ℚ
  | none => 1/2
  | some v => if v = 0 then 1/2 else v

/-- The market_lookup dictionary built from the aligned rows, read with
default one half. A duplicate timestamp keeps its last aligned row, as a
dict comprehension does. -/
def market_lookup (aligned : List (ℤ × Option ℚ)) (ts : ℤ) : ℚ :=
  match aligned.reverse.find? (fun r => r.1 == ts) with
  | some r => yes_price_or_default r.2
  | none => 1/2

/-- One iteration of the run_backtest loop. A stopped state is returned
unchanged, matching the break at the top of the loop body. -/
def step (p : SimParams) (marketOf : ℤ → ℚ) (s : SimState) (r : Row) : SimState :=
  if s.stopped then s
  else
    let market_prob := marketOf r.open_time_ms
    let model_prob := r.model_prob
    let edge := model_prob - market_prob
    if edge < p.edge_threshold then s
    else
      let position := min (p.max_risk_pct * s.balance) p.max_trade_usd
      if position < 1/100 then s
      else
        let outcome := r.outcome
        let pnl := if outcome = 1 then position else -position
        let balance := s.balance + pnl
        let peak_balance := max s.peak_balance balance
        let trade : Trade :=
          ⟨r.open_time_ms, model_prob, market_prob, edge, position, outcome,
            pnl, balance, s.consecutive_losses⟩
        let trades := s.trades ++ [trade]
        let consecutive_losses :=
          if outcome = 0 then s.consecutive_losses + 1 else 0
        let stopped1 : Bool :=
          decide (outcome = 0 ∧ p.consecutive_loss_stop ≤ consecutive_losses)
        let stop_reason1 :=
          if stopped1 then "2 consecutive losses" else s.stop_reason
        let date := ms_to_date r.open_time_ms
        let daily_start :=
          if (lookup_day s.daily_start date).isNone then
            (date, balance - pnl) :: s.daily_start
          else s.daily_start
        let day_start := (lookup_day daily_start date).getD 0
        let daily_dd := if 0 < day_start then (day_start - balance) / day_start else 0
        if p.daily_drawdown_cap ≤ daily_dd then
          ⟨balance, peak_balance, daily_start, trades, consecutive_losses,
            true, "daily drawdown >= 10%"⟩
        else
          ⟨balance, peak_balance, daily_start, trades, consecutive_losses,
            stopped1, stop_reason1⟩

/-- The running-peak drawdown values of the equity points after the
leading zero entry. -/
def drawdown_from (peak : ℚ) : List ℚ → List ℚ
  | [] => []
  | b :: rest =>
      let pk := max peak b
      (if 0 < pk then (pk - b) / pk else 0) :: drawdown_from pk rest

/-- Summary statistics of a backtest run. -/
structure Stats where
  total_trades : ℕ
  wins : ℕ
  losses : ℕ
  win_rate : ℚ
  total_pnl : ℚ
  final_balance : ℚ
  max_drawdown : ℚ
  stop_reason : String
deriving DecidableEq

/-- Python max over a list, with the empty default used by the stats. -/
def list_max : List ℚ → ℚ
  | [] => 0
  | a :: l => l.foldl max a

/-- Summary statistics of a trade ledger together with the curves. -/
def compute_stats (trades : List Trade) (initial_balance : ℚ)
    (equity_curve drawdown_curve : List ℚ) (stop_reason : String) : Stats :=
  if trades.isEmpty then
    ⟨0, 0, 0, 0, 0, initial_balance, 0, stop_reason⟩
  else
    let wins := (trades.filter (fun t => t.outcome == 1)).length
    ⟨trades.length, wins, trades.length - wins, (wins : ℚ) / trades.length,
      (trades.map (fun t => t.pnl)).sum, equity_curve.getLastD initial_balance,
      list_max drawdown_curve, stop_reason⟩

/-- The value returned by run_backtest. The zero-feature-rows early
return carries an empty stats dict, modelled as none. -/
structure BacktestResult where
  trades : List Trade
  equity_curve : List ℚ
  drawdown_curve : List ℚ
  stats : Option Stats

/-- The run_backtest loop and curve construction, starting from the
prepared feature rows and the aligned market rows. -/
def run_backtest (p : SimParams) (aligned : List (ℤ × Option ℚ))
    (rows : List Row) : BacktestResult :=
  if rows.isEmpty then ⟨[], [], [], none⟩
  else
    let final := rows.foldl (step p (market_lookup aligned)) (initState p)
    let balances := final.trades.map (fun t => t.balance_after)
    let equity_curve := p.initial_balance :: balances
    let drawdown_curve := 0 :: drawdown_from p.initial_balance balances
    let stats := compute_stats final.trades p.initial_balance equity_curve
      drawdown_curve final.stop_reason
    ⟨final.trades, equity_curve, drawdown_curve, some stats⟩

/-- The default parameters with an overridden initial balance. -/
def params_with_initial (init : ℚ) : SimParams :=
  { defaultParams with initial_balance := init }

/-! ### features/feature_engineering.py -/

def EMA_FAST : ℕ := 9
def EMA_SLOW : ℕ := 21
def RSI_PERIOD : ℕ := 14
def MACD_FAST : ℕ := 12
def MACD_SLOW : ℕ := 26
def MACD_SIGNAL : ℕ := 9
def ATR_PERIOD : ℕ := 14

/-- Not-a-number-propagating subtraction on indicator entries. -/
def osub : Option ℚ → Option ℚ → Option ℚ
  | some a, some b => some (a - b)
  | _, _ => none

/-- Consecutive differences of a series, as numpy diff. -/
def diffs : List ℚ → List ℚ
  | [] => []
  | [_] => []
  | a :: b :: rest => (b - a) :: diffs (b :: rest)

/-- The EMA recurrence applied elementwise after the seed. -/
def ema_rec (mult prev : ℚ) : List ℚ → List ℚ
  | [] => []
  | x :: rest =>
      let nxt := (x - prev) * mult + prev
      nxt :: ema_rec mult nxt rest

/-- Exponential moving average with simple-mean seeding at index
period - 1 and not-a-number entries before the seed. -/
def ema (series : List ℚ) (period : ℕ) : List (Option ℚ) :=
  if series.length < period then List.replicate series.length none
  else
    let mult : ℚ := 2 / ((period : ℚ) + 1)
    let seed : ℚ := (series.take period).sum / (period : ℚ)
    List.replicate (period - 1) none ++
      some seed :: (ema_rec mult seed (series.drop period)).map some

/-- One Wilder smoothing update of the running (avg gain, avg loss)
pair by the next price delta. -/
def wilder_next (period : ℕ) (gl : ℚ × ℚ) (d : ℚ) : ℚ × ℚ :=
  ((gl.1 * ((period : ℚ) - 1) + max d 0) / (period : ℚ),
   (gl.2 * ((period : ℚ) - 1) + max (-d) 0) / (period : ℚ))

/-- The smoothed (avg gain, avg loss) pairs of indices period and above:
the simple-mean seed followed by Wilder smoothing over the later deltas. -/
def rsi_avgs (closes : List ℚ) (period : ℕ) : List (ℚ × ℚ) :=
  let deltas := diffs closes
  let seed : ℚ × ℚ :=
    (((deltas.take period).map (fun d => max d 0)).sum / (period : ℚ),
     ((deltas.take period).map (fun d => max (-d) 0)).sum / (period : ℚ))
  List.scanl (wilder_next period) seed (deltas.drop period)

/-- The RSI value of one smoothed pair; a zero average loss is replaced
by a relative strength of 100 before the final formula. -/
def rsi_val (gl : ℚ × ℚ) : ℚ :=
  let rs := if gl.2 = 0 then 100 else gl.1 / gl.2
  100 - 100 / (1 + rs)

/-- Relative Strength Index series. -/
def rsi (closes : List ℚ) (period : ℕ) : List (Option ℚ) :=
  if closes.length < period + 1 then List.replicate closes.length none
  else
    List.replicate period none ++
      (rsi_avgs closes period).map (fun gl => some (rsi_val gl))

/-- Numpy nan_to_num over an indicator series: not-a-number becomes 0. -/
def nan_to_num (l : List (Option ℚ)) : List ℚ :=
  l.map (fun o => o.getD 0)

/-- MACD line, signal line and histogram. -/
def macd (closes : List ℚ) (fast slow signal : ℕ) :
    List (Option ℚ) × List (Option ℚ) × List (Option ℚ) :=
  let ema_fast := ema closes fast
  let ema_slow := ema closes slow
  let macd_line := List.zipWith osub ema_fast ema_slow
  let macd_signal := ema (nan_to_num macd_line) signal
  let macd_hist := List.zipWith osub macd_line macd_signal
  (macd_line, macd_signal, macd_hist)

/-- Pointwise ternary zip used to assemble the true range. -/
def zip_with3 (f : ℚ → ℚ → ℚ → ℚ) : List ℚ → List ℚ → List ℚ → List ℚ
  | a :: as', b :: bs, c :: cs => f a b c :: zip_with3 f as' bs cs
  | _, _, _ => []

/-- The Wilder recurrence of ATR after the seed. -/
def wilder_rec (period : ℕ) (prev : ℚ) : List ℚ → List ℚ
  | [] => []
  | t :: rest =>
      let nxt := (prev * ((period : ℚ) - 1) + t) / (period : ℚ)
      nxt :: wilder_rec period nxt rest

/-- Average True Range with previous close rolled by one bar and the
first previous close defined as the first close. -/
def atr (high low close : List ℚ) (period : ℕ) : List (Option ℚ) :=
  if close.length < 2 then List.replicate close.length none
  else
    let prev_close := close.headD 0 :: close.dropLast
    let tr := zip_with3
      (fun h l pc => max (h - l) (max |h - pc| |l - pc|)) high low prev_close
    if tr.length < period then List.replicate close.length none
    else
      let seed := (tr.take period).sum / (period : ℚ)
      List.replicate (period - 1) none ++
        some seed :: (wilder_rec period seed (tr.drop period)).map some

/-- Percentage change with a leading zero and an epsilon guard against a
zero previous value; used for the 5-minute returns and volume change. -/
def pct_change (xs : List ℚ) : List ℚ :=
  match xs with
  | [] => []
  | _ :: _ =>
      0 :: List.zipWith
        (fun x px => (x - px) / (if px = 0 then 1/10000000000 else px))
        (xs.drop 1) xs.dropLast

/-- First difference of the fast EMA with a leading zero entry. -/
def ema_slope_of (e : List (Option ℚ)) : List (Option ℚ) :=
  match e with
  | [] => []
  | _ :: _ => some 0 :: List.zipWith osub (e.drop 1) e.dropLast

/-- Causal labels: 1 exactly when the next close is strictly greater. -/
def labels_of (close : List ℚ) : List ℕ :=
  List.zipWith (fun c pc => if pc < c then 1 else 0) (close.drop 1) close.dropLast

/-- One OHLCV bar; the open price is carried but unused downstream. -/
structure Kline where
  open_price : ℚ
  high : ℚ
  low : ℚ
  close : ℚ
  volume : ℚ
  open_time_ms : ℤ

/-- Warm-up length of the feature builder. -/
def min_len : ℕ :=
  max (max EMA_SLOW RSI_PERIOD) (max (MACD_SLOW + MACD_SIGNAL) ATR_PERIOD)

/-- The per-index stacked feature vectors over the whole bar sequence,
in the fixed ten-column order of the feature matrix. -/
def feature_series (klines : List Kline) : List (List (Option ℚ)) :=
  let close_arr := klines.map (fun k => k.close)
  let high_arr := klines.map (fun k => k.high)
  let low_arr := klines.map (fun k => k.low)
  let volume_arr := klines.map (fun k => k.volume)
  let returns := pct_change close_arr
  let ema9 := ema close_arr EMA_FAST
  let ema21 := ema close_arr EMA_SLOW
  let ema_slope := ema_slope_of ema9
  let rsi14 := rsi close_arr RSI_PERIOD
  let m := macd close_arr MACD_FAST MACD_SLOW MACD_SIGNAL
  let atr14 := atr high_arr low_arr close_arr ATR_PERIOD
  let vol_change := pct_change volume_arr
  (List.range klines.length).map (fun i =>
    [some (returns.getD i 0), ema9.getD i none, ema21.getD i none,
     ema_slope.getD i none, rsi14.getD i none, m.1.getD i none,
     m.2.1.getD i none, m.2.2.getD i none, atr14.getD i none,
     some (vol_change.getD i 0)])

/-- The candidate rows of the feature builder before the non-finite
filter: row index range from the warm-up length up to, excluding, the
last bar, paired with label and timestamp. -/
def pre_rows (klines : List Kline) : List (List (Option ℚ) × ℕ × ℤ) :=
  let fs := feature_series klines
  let labels := labels_of (klines.map (fun k => k.close))
  let tss := klines.map (fun k => k.open_time_ms)
  (List.range' min_len (klines.length - 1 - min_len)).map (fun i =>
    (fs.getD i [], labels.getD i 0, tss.getD i 0))

/-- A row survives the filter exactly when all ten entries are finite. -/
def row_valid (r : List (Option ℚ) × ℕ × ℤ) : Bool :=
  r.1.all Option.isSome

/-- The feature builder: feature matrix, labels and timestamps, with
non-finite rows dropped in lockstep. -/
def build_features (klines : List Kline) :
    List (List ℚ) × List ℕ × List ℤ :=
  if klines.length < 2 then ([], [], [])
  else
    let kept := (pre_rows klines).filter row_valid
    (kept.map (fun r => r.1.map (fun o => o.getD 0)),
     kept.map (fun r => r.2.1),
     kept.map (fun r => r.2.2))

/-- Close series of the C2 counterexample: fifteen strictly increasing
closes, so every delta is a gain and the average loss is zero. -/
def c2closes : List ℚ :=
  [0, 1, 2, 3, 4, 5, 6, 7, 8, 9, 10, 11, 12, 13, 14]

/-- A two-bar sequence used to instantiate the feature-builder claim. -/
def c6klines : List Kline :=
  [⟨1, 2, 0, 1, 5, 0⟩, ⟨1, 2, 0, 2, 5, 300000⟩]


/-! ### Claims C5 and C3 -/

/-- C5: can_trade evaluates its refusal conditions in the fixed
short-circuit order dust-balance, loss-streak stop, daily-drawdown stop,
dust position size, returning the reason of the first condition that
holds and allowing otherwise. -/
theorem c5_can_trade_precedence (bal : ℚ) (losses : ℤ) (ds : ℚ) :
    (bal < 1/100 → can_trade bal losses ds = (false, "insufficient balance")) ∧
    (1/100 ≤ bal → CONSECUTIVE_LOSS_STOP ≤ losses →
      can_trade bal losses ds = (false, "stopped: 2 consecutive losses")) ∧
    (1/100 ≤ bal → losses < CONSECUTIVE_LOSS_STOP →
      0 < ds → should_stop_daily_drawdown ds bal = true →
      can_trade bal losses ds = (false, "stopped: daily drawdown >= 10%")) ∧
    (1/100 ≤ bal → losses < CONSECUTIVE_LOSS_STOP →
      ¬ (0 < ds ∧ should_stop_daily_drawdown ds bal = true) →
      position_size bal < 1/100 →
      can_trade bal losses ds = (false, "position size too small")) ∧
    (1/100 ≤ bal → losses < CONSECUTIVE_LOSS_STOP →
      ¬ (0 < ds ∧ should_stop_daily_drawdown ds bal = true) →
      1/100 ≤ position_size bal →
      can_trade bal losses ds = (true, "ok")) := by
  unfold can_trade should_stop_consecutive_losses
  refine ⟨fun h => ?_, fun h1 h2 => ?_, fun h1 h2 h3 h4 => ?_,
    fun h1 h2 h3 h4 => ?_, fun h1 h2 h3 h4 => ?_⟩
  · rw [if_pos h]
  · rw [if_neg (by linarith), if_pos (by simpa using h2)]
  · rw [if_neg (by linarith), if_neg (by simpa using not_le.mpr h2),
      if_pos ⟨h3, h4⟩]
  · rw [if_neg (by linarith), if_neg (by simpa using not_le.mpr h2),
      if_neg h3, if_pos h4]
  · rw [if_neg (by linarith), if_neg (by simpa using not_le.mpr h2),
      if_neg h3, if_neg (by linarith)]

/-- C5 witness: concrete instances of the first two precedence branches. -/
theorem c5_witness :
    can_trade 0 0 0 = (false, "insufficient balance") ∧
    can_trade 50 3 5 = (false, "stopped: 2 consecutive losses") := by
  exact ⟨(c5_can_trade_precedence 0 0 0).1 (by norm_num),
    (c5_can_trade_precedence 50 3 5).2.1 (by norm_num) (by decide)⟩

/-- Any position of at least one cent forces a balance of at least one cent. -/
lemma balance_ge_of_position_ge (b : ℚ)
    (h : 1/100 ≤ min (MAX_RISK_PCT * b) MAX_TRADE_USD) : 1/100 ≤ b := by
  have h1 := le_trans h (min_le_left _ _)
  unfold MAX_RISK_PCT at h1
  linarith

/-- The signal generator trades exactly when no stop fires, the edge is
sufficient and the position is at least one cent. -/
lemma generate_signal_fst (mp mk bal : ℚ) (losses : ℤ) (ds : Option ℚ) :
    ((generate_signal mp mk bal losses ds).1 = "BUY_YES") ↔
      (¬ CONSECUTIVE_LOSS_STOP ≤ losses ∧ daily_dd_stop bal ds = false ∧
        ¬ mp - mk < EDGE_THRESHOLD ∧ ¬ position_size bal < 1/100) := by
  simp only [generate_signal, position_size]
  split_ifs with h1 h2 h3 h4 <;> simp_all

/-- The signal generator's reported position is the standard position
size when it trades and zero when it skips. -/
lemma generate_signal_snd (mp mk bal : ℚ) (losses : ℤ) (ds : Option ℚ) :
    (generate_signal mp mk bal losses ds).2.1 =
      if (generate_signal mp mk bal losses ds).1 = "BUY_YES" then position_size bal
      else 0 := by
  simp only [generate_signal, position_size]
  split_ifs <;> simp_all

/-- The engine path trades exactly when the edge is sufficient and every
can_trade condition passes. -/
lemma engine_path_fst (mp mk bal : ℚ) (losses : ℤ) (ds : ℚ) :
    ((engine_path mp mk bal losses ds).1 = "BUY_YES") ↔
      (EDGE_THRESHOLD ≤ mp - mk ∧ ¬ bal < 1/100 ∧
        ¬ should_stop_consecutive_losses losses = true ∧
        ¬ (0 < ds ∧ should_stop_daily_drawdown ds bal = true) ∧
        ¬ position_size bal < 1/100) := by
  simp only [engine_path, can_trade, has_edge]
  split_ifs with h1 h2 h3 h4 h5 <;> simp_all

/-- The engine path's reported position is the standard position size
when it trades and zero when it skips. -/
lemma engine_path_snd (mp mk bal : ℚ) (losses : ℤ) (ds : ℚ) :
    (engine_path mp mk bal losses ds).2.1 =
      if (engine_path mp mk bal losses ds).1 = "BUY_YES" then position_size bal
      else 0 := by
  simp only [engine_path, can_trade, has_edge]
  split_ifs <;> simp_all

/-- The generator's in-place daily-drawdown guard coincides with the
can_trade daily-drawdown condition once a missing day entry is read as a
zero day-start balance. -/
lemma daily_dd_stop_bridge (bal : ℚ) (ds : Option ℚ) :
    daily_dd_stop bal ds = false ↔
      ¬ (0 < ds.getD 0 ∧ should_stop_daily_drawdown (ds.getD 0) bal = true) := by
  cases ds with
  | none =>
      simp [daily_dd_stop, Option.getD]
  | some v =>
      by_cases hv : 0 < v
      · simp [daily_dd_stop, should_stop_daily_drawdown, Option.getD, hv,
          not_le.mpr hv, decide_eq_true_eq]
      · have hv' : v ≤ 0 := le_of_not_lt hv
        simp [daily_dd_stop, should_stop_daily_drawdown, Option.getD, hv, hv',
          decide_eq_true_eq, DAILY_DRAWDOWN_CAP_PCT]

/-- C3 (amended): the live signal generator and the engine path agree on
the trade-or-skip decision and on the position size for every input,
although their skip reasons differ. -/
theorem c3_decision_size_agree (mp mk bal : ℚ) (losses : ℤ) (ds : Option ℚ) :
    ((generate_signal mp mk bal losses ds).1 = "BUY_YES" ↔
      (engine_path mp mk bal losses (ds.getD 0)).1 = "BUY_YES") ∧
    (generate_signal mp mk bal losses ds).2.1 =
      (engine_path mp mk bal losses (ds.getD 0)).2.1 := by
  have hiff : (generate_signal mp mk bal losses ds).1 = "BUY_YES" ↔
      (engine_path mp mk bal losses (ds.getD 0)).1 = "BUY_YES" := by
    rw [generate_signal_fst, engine_path_fst, daily_dd_stop_bridge]
    unfold should_stop_consecutive_losses
    constructor
    · rintro ⟨h1, h2, h3, h4⟩
      have hbal : 1/100 ≤ bal := balance_ge_of_position_ge bal (not_lt.mp h4)
      exact ⟨not_lt.mp h3, not_lt.mpr hbal, by simpa using h1, h2, h4⟩
    · rintro ⟨h1, h2, h3, h4, h5⟩
      exact ⟨by simpa using h3, h4, not_lt.mpr h1, h5⟩
  refine ⟨hiff, ?_⟩
  rw [generate_signal_snd, engine_path_snd]
  by_cases hb : (generate_signal mp mk bal losses ds).1 = "BUY_YES"
  · rw [if_pos hb, if_pos (hiff.mp hb)]
  · rw [if_neg hb, if_neg (fun hc => hb (hiff.mpr hc))]

/-- C3 counterexample: at balance 0.05 with a clear edge both paths skip,
but generate_signal reports the insufficient-balance reason while the
can_trade path reports the dust-position reason. -/
theorem c3_counterexample :
    (generate_signal (7/10) (1/2) (5/100) 0 none).1 = "SKIP" ∧
    (engine_path (7/10) (1/2) (5/100) 0 ((none : Option ℚ).getD 0)).1 = "SKIP" ∧
    (generate_signal (7/10) (1/2) (5/100) 0 none).2.2 = "insufficient balance" ∧
    (engine_path (7/10) (1/2) (5/100) 0 ((none : Option ℚ).getD 0)).2.2 =
      "position size too small" ∧
    ("insufficient balance" : String) ≠ "position size too small" := by
  refine ⟨?_, ?_, ?_, ?_, by decide⟩ <;>
    norm_num [generate_signal, engine_path, has_edge, can_trade, position_size,
      should_stop_consecutive_losses, daily_dd_stop, should_stop_daily_drawdown,
      EDGE_THRESHOLD, CONSECUTIVE_LOSS_STOP, MAX_RISK_PCT, MAX_TRADE_USD,
      DAILY_DRAWDOWN_CAP_PCT, min_def]

/-! ### Claim C4 -/

/-- A stopped state is left unchanged by the loop body. -/
lemma step_stopped (p : SimParams) (marketOf : ℤ → ℚ) (s : SimState) (r : Row)
    (hs : s.stopped = true) : step p marketOf s r = s := by
  unfold step
  rw [if_pos hs]

/-- C4: once the stop flag is set, processing any further rows leaves
the ledger unchanged, so its length never grows. -/
theorem c4_monotonic_stop (p : SimParams) (marketOf : ℤ → ℚ) (s : SimState)
    (rows : List Row) (hs : s.stopped = true) :
    (rows.foldl (step p marketOf) s).trades = s.trades ∧
    (rows.foldl (step p marketOf) s).trades.length = s.trades.length := by
  have h : rows.foldl (step p marketOf) s = s := by
    induction rows with
    | nil => rfl
    | cons r rest ih =>
        rw [List.foldl_cons, step_stopped p marketOf s r hs]
        exact ih
  rw [h]
  exact ⟨rfl, rfl⟩

/-- C4 witness: a stopped state with one trade ignores two more rows. -/
theorem c4_witness :
    (([⟨0, 1, 1⟩, ⟨300000, 1, 0⟩] : List Row).foldl
        (step defaultParams (fun _ => 1/2))
        ⟨90, 100, [(0, 100)], [], 2, true, "2 consecutive losses"⟩).trades.length =
      (⟨90, 100, [(0, 100)], [], 2, true, "2 consecutive losses"⟩ : SimState).trades.length :=
  (c4_monotonic_stop defaultParams (fun _ => 1/2)
    ⟨90, 100, [(0, 100)], [], 2, true, "2 consecutive losses"⟩
    [⟨0, 1, 1⟩, ⟨300000, 1, 0⟩] rfl).2

/-! ### Claim C10 -/

/-- C10: a stored yes_price that is exactly zero, or missing, makes the
simulated market probability one half, exactly as an absent timestamp. -/
theorem c10_zero_price_as_missing (aligned : List (ℤ × Option ℚ)) (ts : ℤ) :
    (∀ r : ℤ × Option ℚ,
      aligned.reverse.find? (fun x => x.1 == ts) = some r →
      r.2 = none ∨ r.2 = some 0 →
      market_lookup aligned ts = 1/2) ∧
    (aligned.reverse.find? (fun x => x.1 == ts) = none →
      market_lookup aligned ts = 1/2) := by
  constructor
  · intro r hfind hr
    unfold market_lookup
    rw [hfind]
    rcases hr with h | h <;> simp [yes_price_or_default, h]
  · intro hfind
    unfold market_lookup
    rw [hfind]

/-- C10 witness: a row priced exactly zero reads as one half, and so
does a timestamp with no aligned row at all. -/
theorem c10_witness :
    market_lookup [(5, some 0)] 5 = 1/2 ∧ market_lookup [(5, some 0)] 7 = 1/2 :=
  ⟨(c10_zero_price_as_missing [(5, some 0)] 5).1 (5, some 0) rfl (Or.inr rfl),
   (c10_zero_price_as_missing [(5, some 0)] 7).2 rfl⟩

/-! ### Claim C1 -/

/-- C1 counterexample: with zero feature rows the run returns empty
curves and an empty stats dict, not the singleton curves the claim
states for every no-trade run. -/
theorem c1_counterexample :
    (run_backtest defaultParams [] []).trades = [] ∧
    (run_backtest defaultParams [] []).equity_curve = [] ∧
    (run_backtest defaultParams [] []).equity_curve ≠ [defaultParams.initial_balance] ∧
    (run_backtest defaultParams [] []).drawdown_curve ≠ [0] ∧
    (run_backtest defaultParams [] []).stats = none := by
  refine ⟨rfl, rfl, ?_, ?_, rfl⟩ <;> simp [run_backtest]

/-- C1 (amended): a run over at least one feature row that records no
trades returns the singleton equity curve of the initial balance, the
singleton zero drawdown curve, and no-trade summary stats. -/
theorem c1_no_trades (p : SimParams) (aligned : List (ℤ × Option ℚ)) (rows : List Row)
    (hne : rows ≠ []) (hnt : (run_backtest p aligned rows).trades = []) :
    (run_backtest p aligned rows).equity_curve = [p.initial_balance] ∧
    (run_backtest p aligned rows).drawdown_curve = [0] ∧
    ∃ st : Stats, (run_backtest p aligned rows).stats = some st ∧
      st.total_trades = 0 ∧ st.win_rate = 0 ∧ st.total_pnl = 0 ∧
      st.final_balance = p.initial_balance ∧ st.max_drawdown = 0 := by
  have hemp : ¬ rows.isEmpty = true := by
    simpa [List.isEmpty_iff] using hne
  unfold run_backtest at hnt ⊢
  rw [if_neg hemp] at hnt ⊢
  simp only at hnt ⊢
  rw [hnt] at *
  refine ⟨by simp, by simp [drawdown_from], ?_⟩
  exact ⟨_, rfl, by simp [compute_stats], by simp [compute_stats],
    by simp [compute_stats], by simp [compute_stats], by simp [compute_stats]⟩

/-- C1 witness: a single no-edge row records no trade and yields the
singleton curves. -/
theorem c1_witness :
    (run_backtest defaultParams [] [⟨0, 1/2, 1⟩]).equity_curve =
      [defaultParams.initial_balance] ∧
    (run_backtest defaultParams [] [⟨0, 1/2, 1⟩]).drawdown_curve = [0] := by
  have hnt : (run_backtest defaultParams [] [⟨0, 1/2, 1⟩]).trades = [] := by
    norm_num [run_backtest, step, initState, market_lookup, defaultParams,
      EDGE_THRESHOLD, INITIAL_BALANCE]
  have h := c1_no_trades defaultParams [] [⟨0, 1/2, 1⟩] (by simp) hnt
  exact ⟨h.1, h.2.1⟩

/-! ### Claim C9 -/

/-- Reading a day entry just written at the head of the map. -/
lemma lookup_day_cons (m : List (ℤ × ℚ)) (d : ℤ) (v : ℚ) :
    lookup_day ((d, v) :: m) d = some v := by
  simp [lookup_day, List.find?]

/-- C9: with the default parameters, a losing trade that is the first
recorded trade of its UTC day, whose position is between one cent and
the trade cap, loses exactly 10 percent of the day-start balance and
stops the run with the daily-drawdown reason on that very trade. -/
theorem c9_first_day_loss_stops (marketOf : ℤ → ℚ) (s : SimState) (r : Row)
    (hact : s.stopped = false)
    (hedge : EDGE_THRESHOLD ≤ r.model_prob - marketOf r.open_time_ms)
    (hfirst : lookup_day s.daily_start (ms_to_date r.open_time_ms) = none)
    (hlo : 1/100 ≤ MAX_RISK_PCT * s.balance)
    (hhi : MAX_RISK_PCT * s.balance ≤ MAX_TRADE_USD)
    (hloss : r.outcome = 0) :
    (step defaultParams marketOf s r).stopped = true ∧
    (step defaultParams marketOf s r).stop_reason = "daily drawdown >= 10%" ∧
    (step defaultParams marketOf s r).trades.length = s.trades.length + 1 ∧
    (s.balance - (step defaultParams marketOf s r).balance) / s.balance
      = DAILY_DRAWDOWN_CAP_PCT := by
  have hb10 : (1:ℚ)/10 ≤ s.balance := by
    unfold MAX_RISK_PCT at hlo
    linarith
  have hb0 : (0:ℚ) < s.balance := by linarith
  have hedge2 : ¬ r.model_prob - marketOf r.open_time_ms < EDGE_THRESHOLD :=
    not_lt.mpr hedge
  have hpos2 : ¬ (MAX_RISK_PCT * s.balance < (100:ℚ)⁻¹ ∨ MAX_TRADE_USD < (100:ℚ)⁻¹) := by
    push_neg
    exact ⟨by linarith, by norm_num [MAX_TRADE_USD]⟩
  have hpos3 : ¬ MAX_RISK_PCT * s.balance < (100:ℚ)⁻¹ := by linarith
  have hmin2 : MAX_RISK_PCT * s.balance ⊓ MAX_TRADE_USD = MAX_RISK_PCT * s.balance :=
    min_eq_left hhi
  have harith2 : s.balance - (s.balance + -(MAX_RISK_PCT * s.balance))
      = MAX_RISK_PCT * s.balance := by ring
  have hdd2 : MAX_RISK_PCT * s.balance / s.balance = DAILY_DRAWDOWN_CAP_PCT := by
    unfold MAX_RISK_PCT DAILY_DRAWDOWN_CAP_PCT
    rw [div_eq_iff (ne_of_gt hb0)]
  simp only [step]
  simp [hact, hloss, hfirst, hedge2, hpos2, hpos3, hmin2, harith2, hdd2, hb0,
    lookup_day_cons, defaultParams, le_refl]

/-- C9 witness: a first losing trade at balance 100 stops the default
run with the daily-drawdown reason. -/
theorem c9_witness :
    (step defaultParams (fun _ => 1/2) (initState defaultParams)
        ⟨0, 7/10, 0⟩).stopped = true ∧
    (step defaultParams (fun _ => 1/2) (initState defaultParams)
        ⟨0, 7/10, 0⟩).stop_reason = "daily drawdown >= 10%" := by
  have h := c9_first_day_loss_stops (fun _ => 1/2) (initState defaultParams)
    ⟨0, 7/10, 0⟩ rfl
    (by norm_num [EDGE_THRESHOLD])
    rfl
    (by norm_num [MAX_RISK_PCT, initState, defaultParams, INITIAL_BALANCE])
    (by norm_num [MAX_RISK_PCT, MAX_TRADE_USD, initState, defaultParams, INITIAL_BALANCE])
    rfl
  exact ⟨h.1, h.2.1⟩

/-! ### Claim C8 -/

set_option maxHeartbeats 2000000 in
/-- With a 10 percent risk fraction, every trade the loop records leaves
a strictly positive balance, whatever the other parameters are. -/
lemma step_preserves_pos (p : SimParams) (hr : p.max_risk_pct = 1/10)
    (marketOf : ℤ → ℚ) (s : SimState) (r : Row)
    (hs : ∀ t ∈ s.trades, 0 < t.balance_after) :
    ∀ t ∈ (step p marketOf s r).trades, 0 < t.balance_after := by
  simp only [step]
  split_ifs with h1 h2 h3 <;> try exact hs
  all_goals (
    intro t ht
    rcases List.mem_append.mp ht with h | h
    · exact hs t h
    · rw [List.mem_singleton.mp h]
      dsimp only
      rw [hr] at h3
      have hminle : (1:ℚ)/10 * s.balance ⊓ p.max_trade_usd ≤ 1/10 * s.balance :=
        min_le_left _ _
      have hminge : (1:ℚ)/100 ≤ 1/10 * s.balance ⊓ p.max_trade_usd := not_lt.mp h3
      have hbal : (1:ℚ)/10 ≤ s.balance := by linarith
      rw [hr]
      linarith)

/-- Balance positivity propagated along the whole loop. -/
lemma foldl_preserves_pos (p : SimParams) (hr : p.max_risk_pct = 1/10)
    (marketOf : ℤ → ℚ) (rows : List Row) :
    ∀ s : SimState, (∀ t ∈ s.trades, 0 < t.balance_after) →
      ∀ t ∈ (rows.foldl (step p marketOf) s).trades, 0 < t.balance_after := by
  induction rows with
  | nil => exact fun s hs => hs
  | cons r rest ih =>
      intro s hs
      exact ih (step p marketOf s r) (step_preserves_pos p hr marketOf s r hs)

/-- Drawdown values of positive equity points against a positive running
peak lie between zero and one. -/
lemma drawdown_from_bounds (bs : List ℚ) :
    ∀ peak : ℚ, 0 < peak → (∀ b ∈ bs, 0 < b) →
      ∀ d ∈ drawdown_from peak bs, 0 ≤ d ∧ d ≤ 1 := by
  induction bs with
  | nil =>
      intro peak _ _ d hd
      simp [drawdown_from] at hd
  | cons b rest ih =>
      intro peak hp hb d hd
      have hb0 : 0 < b := hb b (List.mem_cons_self b rest)
      have hpk : 0 < max peak b := lt_of_lt_of_le hp (le_max_left _ _)
      simp only [drawdown_from] at hd
      rcases List.mem_cons.mp hd with h | h
      · subst h
        rw [if_pos hpk]
        constructor
        · exact div_nonneg (by linarith [le_max_right peak b]) (le_of_lt hpk)
        · rw [div_le_one hpk]
          linarith
      · exact ih (max peak b) hpk (fun x hx => hb x (List.mem_cons_of_mem b hx)) d h

/-- C8 (amended): over a default-parameter run with positive initial
balance, every drawdown value lies in the closed unit interval, and the
first value is zero whenever the run has at least one feature row. -/
theorem c8_drawdown_bounds (init : ℚ) (aligned : List (ℤ × Option ℚ))
    (rows : List Row) (h0 : 0 < init) :
    (∀ d ∈ (run_backtest (params_with_initial init) aligned rows).drawdown_curve,
      0 ≤ d ∧ d ≤ 1) ∧
    (rows ≠ [] →
      (run_backtest (params_with_initial init) aligned rows).drawdown_curve.head?
        = some 0) := by
  by_cases hrows : rows.isEmpty
  · have hnil : rows = [] := List.isEmpty_iff.mp hrows
    subst hnil
    constructor
    · intro d hd
      simp [run_backtest] at hd
    · intro hne
      exact absurd rfl hne
  · have hr : (params_with_initial init).max_risk_pct = 1/10 := rfl
    have hinit : (params_with_initial init).initial_balance = init := rfl
    have hposall : ∀ t ∈ ((rows.foldl
        (step (params_with_initial init) (market_lookup aligned))
        (initState (params_with_initial init)))).trades, 0 < t.balance_after :=
      foldl_preserves_pos (params_with_initial init) hr (market_lookup aligned)
        rows (initState (params_with_initial init)) (by simp [initState])
    unfold run_backtest
    rw [if_neg hrows]
    simp only [hinit]
    constructor
    · intro d hd
      rcases List.mem_cons.mp hd with h | h
      · subst h
        norm_num
      · refine drawdown_from_bounds _ init h0 ?_ d h
        intro b hb
        rcases List.mem_map.mp hb with ⟨t, ht, hbt⟩
        rw [← hbt]
        exact hposall t ht
    · intro _
      rfl

/-- C8 counterexample: the zero-feature-rows run returns an empty
drawdown curve, which has no first value at all. -/
theorem c8_counterexample :
    (run_backtest defaultParams [] []).drawdown_curve = [] ∧
    (run_backtest defaultParams [] []).drawdown_curve.head? ≠ some 0 := by
  exact ⟨rfl, by simp [run_backtest]⟩

/-- C8 witness: a one-row run at initial balance 100 has drawdown curve
starting at zero. -/
theorem c8_witness :
    (run_backtest (params_with_initial 100) [] [⟨0, 1/2, 1⟩]).drawdown_curve.head?
      = some 0 :=
  (c8_drawdown_bounds 100 [] [⟨0, 1/2, 1⟩] (by norm_num)).2 (by simp)

/-! ### Claim C2 -/

/-- All smoothed (avg gain, avg loss) pairs have nonnegative components
when the seed does. -/
lemma wilder_avgs_nonneg (period : ℕ) (hp : 1 ≤ period) (deltas : List ℚ) :
    ∀ seed : ℚ × ℚ, 0 ≤ seed.1 → 0 ≤ seed.2 →
      ∀ gl ∈ List.scanl (wilder_next period) seed deltas, 0 ≤ gl.1 ∧ 0 ≤ gl.2 := by
  have hper : (0:ℚ) ≤ (period : ℚ) - 1 := by
    have : (1:ℚ) ≤ (period : ℚ) := by exact_mod_cast hp
    linarith
  have hper0 : (0:ℚ) ≤ (period : ℚ) := by positivity
  induction deltas with
  | nil =>
      intro seed h1 h2 gl hgl
      simp only [List.scanl] at hgl
      rw [List.mem_singleton.mp hgl]
      exact ⟨h1, h2⟩
  | cons d rest ih =>
      intro seed h1 h2 gl hgl
      rw [List.scanl_cons] at hgl
      rcases List.mem_append.mp hgl with h | h
      · rw [List.mem_singleton.mp h]
        exact ⟨h1, h2⟩
      · refine ih (wilder_next period seed d) ?_ ?_ gl h
        · exact div_nonneg
            (add_nonneg (mul_nonneg h1 hper) (le_max_right _ _)) hper0
        · exact div_nonneg
            (add_nonneg (mul_nonneg h2 hper) (le_max_right _ _)) hper0

/-- An RSI value computed from nonnegative averages lies in the closed
interval from 0 to 100. -/
lemma rsi_val_bounds (gl : ℚ × ℚ) (h1 : 0 ≤ gl.1) (h2 : 0 ≤ gl.2) :
    0 ≤ rsi_val gl ∧ rsi_val gl ≤ 100 := by
  unfold rsi_val
  by_cases h : gl.2 = 0
  · rw [if_pos h]
    norm_num
  · rw [if_neg h]
    have h2' : 0 < gl.2 := lt_of_le_of_ne h2 (Ne.symm h)
    have hrs : 0 ≤ gl.1 / gl.2 := div_nonneg h1 (le_of_lt h2')
    have h1rs : (1:ℚ) ≤ 1 + gl.1 / gl.2 := by linarith
    constructor
    · have hle : 100 / (1 + gl.1 / gl.2) ≤ 100 := div_le_self (by norm_num) h1rs
      linarith
    · have hpos : 0 < 100 / (1 + gl.1 / gl.2) := by positivity
      linarith

/-- A zero smoothed average loss yields the fixed RSI value
100 - 100/101, regardless of the average gain. -/
lemma rsi_val_zero_loss (gl : ℚ × ℚ) (hz : gl.2 = 0) :
    rsi_val gl = 10000/101 := by
  unfold rsi_val
  rw [if_pos hz]
  norm_num

/-- Every smoothed pair of rsi_avgs has nonnegative components, since
the simple-mean seeds average nonnegative clipped deltas. -/
lemma rsi_avgs_nonneg (closes : List ℚ) (period : ℕ) (hp : 1 ≤ period) :
    ∀ gl ∈ rsi_avgs closes period, 0 ≤ gl.1 ∧ 0 ≤ gl.2 := by
  have hper0 : (0:ℚ) ≤ (period : ℚ) := by positivity
  have hsum : ∀ l : List ℚ, (0:ℚ) ≤ (l.map (fun d => max d 0)).sum := by
    intro l
    refine List.sum_nonneg ?_
    intro y hy
    rcases List.mem_map.mp hy with ⟨d, _, hd⟩
    rw [← hd]
    exact le_max_right _ _
  have hsum' : ∀ l : List ℚ, (0:ℚ) ≤ (l.map (fun d => max (-d) 0)).sum := by
    intro l
    refine List.sum_nonneg ?_
    intro y hy
    rcases List.mem_map.mp hy with ⟨d, _, hd⟩
    rw [← hd]
    exact le_max_right _ _
  simp only [rsi_avgs]
  exact wilder_avgs_nonneg period hp _ _
    (div_nonneg (hsum _) hper0) (div_nonneg (hsum' _) hper0)

/-- C2 (amended): every defined RSI value lies in the closed interval
from 0 to 100; at every index whose smoothed average loss is 0, the RSI
value equals 100 - 100/101 = 10000/101, never 100. -/
theorem c2_rsi_bounds (closes : List ℚ) (period : ℕ) (hp : 1 ≤ period) :
    (∀ x : ℚ, some x ∈ rsi closes period → 0 ≤ x ∧ x ≤ 100) ∧
    (∀ i : ℕ, ∀ gl : ℚ × ℚ, (rsi_avgs closes period)[i]? = some gl →
      gl.2 = 0 → period + 1 ≤ closes.length →
      (rsi closes period)[period + i]? = some (some (10000/101))) := by
  have hper0 : (0:ℚ) ≤ (period : ℚ) := by positivity
  constructor
  · intro x hx
    unfold rsi at hx
    split_ifs at hx with h
    · rw [List.mem_replicate] at hx
      exact absurd hx.2 (by simp)
    · rcases List.mem_append.mp hx with hmem | hmem
      · rw [List.mem_replicate] at hmem
        exact absurd hmem.2 (by simp)
      · rcases List.mem_map.mp hmem with ⟨gl, hgl, hmap⟩
        have hnn := rsi_avgs_nonneg closes period hp gl hgl
        have hx' : x = rsi_val gl := (Option.some_injective ℚ hmap).symm
        rw [hx']
        exact rsi_val_bounds gl hnn.1 hnn.2
  · intro i gl hgl hz hlen
    have hi : i < (rsi_avgs closes period).length := by
      by_contra hlt
      rw [List.getElem?_eq_none (le_of_not_lt hlt)] at hgl
      exact Option.noConfusion hgl
    unfold rsi
    rw [if_neg (not_lt.mpr hlen)]
    rw [List.getElem?_append_right (by simp : (List.replicate period
      (none : Option ℚ)).length ≤ period + i)]
    rw [List.length_replicate]
    have hidx : period + i - period = i := by omega
    rw [hidx, List.getElem?_map, hgl]
    simp [rsi_val_zero_loss gl hz]

/-- C2 counterexample: fifteen strictly increasing closes make the
period-14 smoothed average loss zero with positive average gain at the
first defined index, yet the RSI there is 10000/101, not 100. -/
theorem c2_counterexample :
    (rsi_avgs c2closes 14)[0]? = some (1, 0) ∧
    (rsi c2closes 14)[14]? = some (some (10000/101)) ∧
    (10000/101 : ℚ) ≠ 100 := by
  refine ⟨?_, ?_, by norm_num⟩
  · norm_num [rsi_avgs, c2closes, diffs, List.scanl, max_def]
  · norm_num [rsi, rsi_avgs, rsi_val, c2closes, diffs, List.scanl, max_def,
      List.getElem?_append_right, List.replicate]

/-- C2 witness: the zero-average-loss RSI value instantiated at the
concrete increasing close series. -/
theorem c2_witness :
    (rsi c2closes 14)[14 + 0]? = some (some (10000/101)) :=
  (c2_rsi_bounds c2closes 14 (by norm_num)).2 0 (1, 0)
    (by norm_num [rsi_avgs, c2closes, diffs, List.scanl, max_def])
    rfl (by norm_num [c2closes])

/-! ### Claim C6 -/

/-- Mapping a default read over a range of in-bound indices is the
corresponding slice of the list. -/
lemma range'_map_getD {α : Type _} (d : α) :
    ∀ (k a : ℕ) (l : List α), a + k ≤ l.length →
      (List.range' a k).map (fun i => l.getD i d) = (l.drop a).take k := by
  intro k
  induction k with
  | zero =>
      intro a l _
      simp
  | succ n ih =>
      intro a l h
      have ha : a < l.length := by omega
      rw [List.range'_succ, List.map_cons, List.getD_eq_getElem l d ha,
        List.drop_eq_getElem_cons ha, List.take_succ_cons]
      congr 1
      exact ih (a + 1) l (by omega)

/-- C6: the feature builder's warm-up is 35; before the non-finite
filter it selects exactly the rows of index range from the warm-up up to
the second-to-last bar, with timestamps the corresponding slice of the
bar timestamps in order; and the filtered outputs have equal lengths
with row order preserved. -/
theorem c6_warmup_alignment (klines : List Kline) (h2 : 2 ≤ klines.length) :
    min_len = 35 ∧
    (pre_rows klines).length = klines.length - 1 - min_len ∧
    (pre_rows klines).map (fun r => r.2.2) =
      ((klines.drop min_len).take (klines.length - 1 - min_len)).map
        (fun k => k.open_time_ms) ∧
    (build_features klines).1.length = (build_features klines).2.1.length ∧
    (build_features klines).2.1.length = (build_features klines).2.2.length ∧
    ((build_features klines).2.2).Sublist
      ((pre_rows klines).map (fun r => r.2.2)) := by
  refine ⟨by decide, ?_, ?_, ?_, ?_, ?_⟩
  · simp [pre_rows]
  · by_cases hk : klines.length - 1 - min_len = 0
    · simp [pre_rows, hk]
    · have hle : min_len + (klines.length - 1 - min_len) ≤
          (klines.map (fun k => k.open_time_ms)).length := by
        rw [List.length_map]
        omega
      simp only [pre_rows, List.map_map]
      have hfun : ((fun r : List (Option ℚ) × ℕ × ℤ => r.2.2) ∘ fun i =>
          ((feature_series klines).getD i [],
           (labels_of (List.map (fun k => k.close) klines)).getD i 0,
           (List.map (fun k => k.open_time_ms) klines).getD i 0)) =
          fun i => (List.map (fun k => k.open_time_ms) klines).getD i 0 := rfl
      rw [hfun, range'_map_getD 0 _ _ _ hle, ← List.map_drop, ← List.map_take]
  · unfold build_features
    rw [if_neg (not_lt.mpr h2)]
    simp
  · unfold build_features
    rw [if_neg (not_lt.mpr h2)]
    simp
  · unfold build_features
    rw [if_neg (not_lt.mpr h2)]
    simp only
    exact List.Sublist.map _ (List.filter_sublist _)

/-- C6 witness: the warm-up alignment at a concrete two-bar sequence. -/
theorem c6_witness :
    (pre_rows c6klines).length = c6klines.length - 1 - min_len ∧
    (build_features c6klines).1.length = (build_features c6klines).2.1.length :=
  ⟨(c6_warmup_alignment c6klines (by decide)).2.1,
   (c6_warmup_alignment c6klines (by decide)).2.2.2.1⟩

/-! ### Claim C7 -/

/-- The EMA recurrence output has the length of its input. -/
lemma ema_rec_length (mult : ℚ) :
    ∀ (xs : List ℚ) (prev : ℚ), (ema_rec mult prev xs).length = xs.length := by
  intro xs
  induction xs with
  | nil => intro prev; rfl
  | cons x rest ih =>
      intro prev
      simp [ema_rec, ih]

/-- Every entry of the EMA recurrence output is obtained from its
predecessor, or from the seed at the first position, by one smoothing
update with the input value at that position. -/
lemma ema_rec_getElem (mult : ℚ) :
    ∀ (xs : List ℚ) (prev : ℚ) (j : ℕ), j < xs.length →
      ∃ e x,
        (if j = 0 then some prev else (ema_rec mult prev xs)[j - 1]?) = some e ∧
        xs[j]? = some x ∧
        (ema_rec mult prev xs)[j]? = some ((x - e) * mult + e) := by
  intro xs
  induction xs with
  | nil =>
      intro prev j hj
      simp at hj
  | cons x rest ih =>
      intro prev j hj
      have hunf : ema_rec mult prev (x :: rest) =
          ((x - prev) * mult + prev) :: ema_rec mult ((x - prev) * mult + prev) rest := rfl
      cases j with
      | zero =>
          refine ⟨prev, x, by simp, by simp, ?_⟩
          rw [hunf, List.getElem?_cons_zero]
      | succ jj =>
          have hjj : jj < rest.length := by simpa using hj
          obtain ⟨e, y, h1, h2, h3⟩ := ih ((x - prev) * mult + prev) jj hjj
          refine ⟨e, y, ?_, by simpa using h2, ?_⟩
          · rw [if_neg (Nat.succ_ne_zero jj), hunf]
            simp only [Nat.add_sub_cancel]
            cases jj with
            | zero =>
                rw [List.getElem?_cons_zero]
                simpa using h1
            | succ k =>
                rw [List.getElem?_cons_succ]
                simpa using h1
          · rw [hunf, List.getElem?_cons_succ]
            exact h3

/-- C7: the EMA is all not-a-number when the series is shorter than the
period, carries not-a-number entries strictly before index period - 1,
seeds index period - 1 with the simple mean of the first period values,
and satisfies the smoothing recurrence at every later index. -/
theorem c7_ema (series : List ℚ) (period : ℕ) (hp : 1 ≤ period) :
    (series.length < period →
      ema series period = List.replicate series.length none) ∧
    (period ≤ series.length → ∀ i, i < period - 1 →
      (ema series period)[i]? = some none) ∧
    (period ≤ series.length →
      (ema series period)[period - 1]? =
        some (some ((series.take period).sum / (period : ℚ)))) ∧
    (∀ i, period ≤ i → i < series.length →
      ∃ e x, (ema series period)[i - 1]? = some (some e) ∧
        series[i]? = some x ∧
        (ema series period)[i]? =
          some (some ((x - e) * (2 / ((period : ℚ) + 1)) + e))) := by
  refine ⟨?_, ?_, ?_, ?_⟩
  · intro h
    unfold ema
    rw [if_pos h]
  · intro hpn i hi
    simp only [ema]
    rw [if_neg (not_lt.mpr hpn)]
    rw [List.getElem?_append]
    rw [if_pos (by simpa using hi)]
    rw [List.getElem?_replicate, if_pos hi]
  · intro hpn
    simp only [ema]
    rw [if_neg (not_lt.mpr hpn)]
    rw [List.getElem?_append_right (by simp)]
    simp
  · intro i hpi hin
    have hpn : period ≤ series.length := le_trans hpi (le_of_lt hin)
    simp only [ema]
    rw [if_neg (not_lt.mpr hpn)]
    obtain ⟨e, x, h1, h2, h3⟩ := ema_rec_getElem (2 / ((period : ℚ) + 1))
      (series.drop period) ((series.take period).sum / (period : ℚ))
      (i - period) (by rw [List.length_drop]; omega)
    refine ⟨e, x, ?_, ?_, ?_⟩
    · by_cases hip : i = period
      · subst hip
        rw [if_pos (by omega : i - i = 0)] at h1
        rw [List.getElem?_append_right
          (by simp : (List.replicate (i - 1) (none : Option ℚ)).length ≤ i - 1)]
        rw [List.length_replicate]
        rw [(by omega : i - 1 - (i - 1) = 0), List.getElem?_cons_zero]
        exact congrArg (Option.map some) h1
      · have hgt : period < i := lt_of_le_of_ne hpi (Ne.symm hip)
        rw [if_neg (by omega : ¬ i - period = 0)] at h1
        rw [List.getElem?_append_right
          (by simp; omega : (List.replicate (period - 1) (none : Option ℚ)).length ≤ i - 1)]
        rw [List.length_replicate]
        rw [(by omega : i - 1 - (period - 1) = (i - period - 1) + 1),
          List.getElem?_cons_succ, List.getElem?_map, h1]
        rfl
    · rw [List.getElem?_drop] at h2
      rw [(by omega : period + (i - period) = i)] at h2
      exact h2
    · rw [List.getElem?_append_right
        (by simp; omega : (List.replicate (period - 1) (none : Option ℚ)).length ≤ i)]
      rw [List.length_replicate]
      rw [(by omega : i - (period - 1) = (i - period) + 1),
        List.getElem?_cons_succ, List.getElem?_map, h3]
      rfl

/-- C7 witness: seeding and recurrence of a period-1 EMA over a
two-point series. -/
theorem c7_witness :
    (ema [(1 : ℚ), 3] 1)[1 - 1]? =
      some (some ((List.take 1 [(1 : ℚ), 3]).sum / ((1 : ℕ) : ℚ))) ∧
    (∃ e x, (ema [(1 : ℚ), 3] 1)[1 - 1]? = some (some e) ∧
      ([(1 : ℚ), 3])[1]? = some x ∧
      (ema [(1 : ℚ), 3] 1)[1]? =
        some (some ((x - e) * (2 / (((1 : ℕ) : ℚ) + 1)) + e))) :=
  ⟨(c7_ema [(1 : ℚ), 3] 1 (by norm_num)).2.2.1 (by norm_num),
   (c7_ema [(1 : ℚ), 3] 1 (by norm_num)).2.2.2 1 (by norm_num) (by norm_num)⟩

end BtcBot
